import Mathlib

/-!
Verification of the bulk archive extractor script
(src/python/scripts/bulk-extract/bulk-extract.py).

The script is embedded shallowly:

* A directory tree is a first-order forest (`FSForest`): a sibling list
  whose entries are files or directories; a directory carries an
  `accessible` flag modelling whether `iterdir` succeeds on it or raises
  `PermissionError`.  Paths are lists of name components relative to the
  root.
* `find_archives` embeds the recursive search of the source, including the
  depth cutoff (`current_depth > max_depth` checked at entry of each
  directory frame), the `endswith` extension test and the final `sorted`
  call (lexicographic on path components, as CPython compares `Path`
  values by their component tuples).
* The dispatcher (`extract_archive` with `extract_zip` / `extract_7z`) and
  the processing loop of `bulk_extract` are embedded as pure functions
  that also return the list of filesystem / logging effects (`Event`)
  they perform, with oracles standing for the outcomes of the external
  backends (`backendOk`) and of file deletion (`unlinkOk`).
* `detect_7zip` embeds `SevenZipHandler._detect_7zip`, with an oracle
  `works` standing for `_test_7zip_executable`.
* `run_batch` embeds the batch loop, with each YAML entry abstracted to
  whether it has a `path` field and to the outcome of its `bulk_extract`
  call.
* `main_single` embeds the exit-code logic of `main` for single-path runs.
-/

/-- A directory forest: the sibling list of one directory, each entry a
file or a subdirectory.  `accessible = false` on a directory models
`iterdir` raising `PermissionError` there. -/
inductive FSForest where
  | nil : FSForest
  | file (name : String) (rest : FSForest)
  | dir (name : String) (accessible : Bool) (children : FSForest) (rest : FSForest)
deriving DecidableEq, Repr

/-- Python `name.endswith(ext)`. -/
def endswith (name ext : String) : Bool := ext.data.isSuffixOf name.data

/-- `any(item.name.endswith(ext) for ext in extensions)` (line 345). -/
def matchesExts (exts : List String) (name : String) : Bool :=
  exts.any (fun ext => endswith name ext)

/-- The cutoff test of line 339: `max_depth is not None and current_depth > max_depth`. -/
def depthBlocked (maxDepth : Option Int) (d : Nat) : Bool :=
  match maxDepth with
  | some m => decide ((d : Int) > m)
  | none => false

/-- The body of `search_recursive` (lines 338-356) for the entries of one
directory: files are collected when an extension matches; a subdirectory
is entered at depth `depth + 1` unless the cutoff fires at the entry of
its frame or `iterdir` raises `PermissionError` there (then that branch
contributes zero entries). -/
def search_items (exts : List String) (maxDepth : Option Int) :
    FSForest → Nat → List String → List (List String)
  | .nil, _, _ => []
  | .file name rest, depth, pfx =>
      (if matchesExts exts name then [pfx ++ [name]] else []) ++
        search_items exts maxDepth rest depth pfx
  | .dir name acc children rest, depth, pfx =>
      (if depthBlocked maxDepth (depth + 1) then []
       else if acc then search_items exts maxDepth children (depth + 1) (pfx ++ [name])
       else []) ++
        search_items exts maxDepth rest depth pfx

/-- Python `sorted` on `Path` values: lexicographic on component lists. -/
def sortPaths (l : List (List String)) : List (List String) :=
  l.insertionSort (· ≤ ·)

/-- `find_archives` (lines 333-359): run `search_recursive(path, 0)` and
sort the collected files.  `rootAccessible = false` models `iterdir`
raising on the root itself. -/
def find_archives (rootAccessible : Bool) (root : FSForest) (exts : List String)
    (maxDepth : Option Int) : List (List String) :=
  sortPaths
    (if depthBlocked maxDepth 0 then []
     else if rootAccessible then search_items exts maxDepth root 0 []
     else [])

/-- All files of the forest with the directory depth at which each sits
(the root entries sit at depth `d`). -/
def allFiles : FSForest → Nat → List String → List (List String × Nat)
  | .nil, _, _ => []
  | .file name rest, d, pfx => (pfx ++ [name], d) :: allFiles rest d pfx
  | .dir name _ children rest, d, pfx =>
      allFiles children (d + 1) (pfx ++ [name]) ++ allFiles rest d pfx

/-- Every directory of the forest is readable. -/
def allAccessible : FSForest → Bool
  | .nil => true
  | .file _ rest => allAccessible rest
  | .dir _ acc children rest => acc && allAccessible children && allAccessible rest

/-- A file depth is within the configured maximum (unlimited when unset). -/
def withinDepth (maxDepth : Option Int) (d : Nat) : Bool :=
  match maxDepth with
  | some m => decide ((d : Int) ≤ m)
  | none => true

/-- The Archive Locator contract as the spec words it: the ordered
(lexicographic by path) list of exactly the files of the tree whose name
suffix is in the configured extension set and which sit no deeper than
the configured maximum number of directory levels below the root. -/
def locatorSpec (root : FSForest) (exts : List String) (maxDepth : Option Int) :
    List (List String) :=
  sortPaths
    (((allFiles root 0 []).filter
        (fun pd => matchesExts exts (pd.1.getLastD "") && withinDepth maxDepth pd.2)).map
      Prod.fst)

/-- A located archive file: the component path of its parent directory and
its file name. -/
structure ArchiveFile where
  parent : List String
  name : String
deriving DecidableEq, Repr

/-- Index of the last occurrence of a character, Python `str.rfind`. -/
def rfindIdx : List Char → Char → Option Nat
  | [], _ => none
  | x :: xs, c =>
      match rfindIdx xs c with
      | some j => some (j + 1)
      | none => if x = c then some 0 else none

/-- `pathlib.PurePath.suffix` of a file name: the last dot extension, empty
when the name has no dot, starts with its only dot, or ends in a dot. -/
def pySuffix (name : String) : String :=
  let cs := name.data
  match rfindIdx cs '.' with
  | some i => if 0 < i && i < cs.length - 1 then String.mk (cs.drop i) else ""
  | none => ""

/-- `pathlib.PurePath.stem` of a file name: the name without `pySuffix`. -/
def pyStem (name : String) : String :=
  let cs := name.data
  match rfindIdx cs '.' with
  | some i => if 0 < i && i < cs.length - 1 then String.mk (cs.take i) else name
  | none => name

/-- Python `str.lower` (the suffixes compared here are ASCII). -/
def lowerStr (s : String) : String := String.mk (s.data.map Char.toLower)

/-- The method `SevenZipHandler` settles on: the in-process library or an
external executable found at `path`. -/
inductive SevenMethod where
  | py7zr : SevenMethod
  | executable (path : String) : SevenMethod
deriving DecidableEq, Repr

/-- Observable effects of the dispatcher and of the processing loop. -/
inductive Event where
  | mkdir (dir : List String)
  | invokeZip (file : ArchiveFile)
  | invoke7z (file : ArchiveFile)
  | warnUnsupported (file : ArchiveFile)
  | error7zUnavailable (file : ArchiveFile)
  | unlink (file : ArchiveFile)
  | unlinkError (file : ArchiveFile)
deriving DecidableEq, Repr

/-- `extract_zip` (lines 361-383): in dry-run it succeeds without touching
the backend; otherwise the zip backend runs and any exception is caught,
yielding failure.  `backendOk` is the oracle for the backend outcome. -/
def extract_zip (file : ArchiveFile) (dryRun : Bool) (backendOk : ArchiveFile → Bool) :
    Bool × List Event :=
  if dryRun then (true, [])
  else (backendOk file, [Event.invokeZip file])

/-- `extract_7z` (lines 385-407): with no 7z method available it logs an
error and fails before the dry-run test; otherwise as `extract_zip`. -/
def extract_7z (file : ArchiveFile) (seven : Option SevenMethod) (dryRun : Bool)
    (backendOk : ArchiveFile → Bool) : Bool × List Event :=
  match seven with
  | none => (false, [Event.error7zUnavailable file])
  | some _ =>
      if dryRun then (true, [])
      else (backendOk file, [Event.invoke7z file])

/-- `extract_archive` (lines 409-431): compute the output directory
(`base_output_dir / stem` if a base is given, else `parent / stem`),
create it unless dry-run, then dispatch on the lowercased suffix:
`.zip` and `.7z` go to their backends, anything else logs a warning and
fails. -/
def extract_archive (file : ArchiveFile) (base : Option (List String))
    (seven : Option SevenMethod) (dryRun : Bool) (backendOk : ArchiveFile → Bool) :
    Bool × List Event :=
  let output_dir :=
    match base with
    | some b => b ++ [pyStem file.name]
    | none => file.parent ++ [pyStem file.name]
  let mkEv : List Event := if dryRun then [] else [Event.mkdir output_dir]
  let file_ext := lowerStr (pySuffix file.name)
  if file_ext = ".zip" then
    let r := extract_zip file dryRun backendOk
    (r.1, mkEv ++ r.2)
  else if file_ext = ".7z" then
    let r := extract_7z file seven dryRun backendOk
    (r.1, mkEv ++ r.2)
  else
    (false, mkEv ++ [Event.warnUnsupported file])

/-- The run options and effect oracles of one `bulk_extract` call. -/
structure ExtractCtx where
  base : Option (List String)
  seven : Option SevenMethod
  dryRun : Bool
  removeArchives : Bool
  backendOk : ArchiveFile → Bool
  unlinkOk : ArchiveFile → Bool

/-- One iteration of the loop of `bulk_extract` (lines 481-501): extract,
and on success with removal requested in a non-dry-run attempt to delete
the original, logging (not failing) a deletion error. -/
def processOne (ctx : ExtractCtx) (file : ArchiveFile) : Bool × List Event :=
  let r := extract_archive file ctx.base ctx.seven ctx.dryRun ctx.backendOk
  if r.1 && ctx.removeArchives && !ctx.dryRun then
    if ctx.unlinkOk file then (r.1, r.2 ++ [Event.unlink file])
    else (r.1, r.2 ++ [Event.unlinkError file])
  else r

/-- The processing loop of `bulk_extract` (lines 479-501) over the located
archives: the success count and the concatenated effects. -/
def bulk_extract_loop (ctx : ExtractCtx) : List ArchiveFile → Nat × List Event
  | [] => (0, [])
  | f :: rest =>
      let r := processOne ctx f
      let rr := bulk_extract_loop ctx rest
      ((if r.1 then 1 else 0) + rr.1, r.2 ++ rr.2)

/-- The target output directory as the spec words it: the output root
joined with the archive base name when an output root is supplied, else
the parent directory joined with the base name. -/
def dispatcherTargetDir (base : Option (List String)) (file : ArchiveFile) : List String :=
  match base with
  | some root => root ++ [pyStem file.name]
  | none => file.parent ++ [pyStem file.name]

/-- Recognises directory-creation events. -/
def isMkdir : Event → Bool
  | .mkdir _ => true
  | _ => false

/-- The environment probed by `SevenZipHandler._detect_7zip`: whether the
py7zr import succeeded, the caller-supplied path, the platform, the
`shutil.which` result, and the oracle `works` standing for
`_test_7zip_executable`. -/
structure SevenZipEnv where
  hasPy7zr : Bool
  customPath : Option String
  isWindows : Bool
  whichResult : Option String
  works : String → Bool

/-- The default install locations probed on Windows (lines 132-136). -/
def windowsCommonPaths : List String :=
  ["C:\\Program Files\\7-Zip\\7z.exe", "C:\\Program Files (x86)\\7-Zip\\7z.exe",
   "C:\\Tools\\7-Zip\\7z.exe"]

/-- The default install locations probed on Linux and macOS (lines 141-145). -/
def unixCommonPaths : List String :=
  ["/usr/bin/7z", "/usr/local/bin/7z", "/opt/local/bin/7z"]

/-- `paths_to_check` as assembled at lines 124-151: the caller-supplied
path first, then the platform defaults, then the system PATH lookup. -/
def paths_to_check (env : SevenZipEnv) : List String :=
  (match env.customPath with
   | some p => [p]
   | none => []) ++
    (if env.isWindows then windowsCommonPaths else unixCommonPaths) ++
    (match env.whichResult with
     | some p => [p]
     | none => [])

/-- The probing loop of lines 154-160: the first candidate that passes
`_test_7zip_executable`. -/
def firstWorking (works : String → Bool) : List String → Option String
  | [] => none
  | p :: rest => if works p then some p else firstWorking works rest

/-- `SevenZipHandler._detect_7zip` (lines 114-165): py7zr when importable,
else the first working executable candidate, else no method. -/
def detect_7zip (env : SevenZipEnv) : Option SevenMethod :=
  if env.hasPy7zr then some SevenMethod.py7zr
  else
    match firstWorking env.works (paths_to_check env) with
    | some p => some (SevenMethod.executable p)
    | none => none

/-- One entry of the batch configuration list, abstracted to whether it
carries a `path` field and to the outcome of its `bulk_extract` call
(an exception, or a success/total pair). -/
structure BatchEntry where
  hasPath : Bool
  outcome : Except String (Nat × Nat)

/-- The per-entry log line the batch loop emits. -/
inductive BatchEvent where
  | missingPathError (idx : Nat)
  | entryError (idx : Nat)
  | entryCompleted (idx : Nat) (success total : Nat)
deriving DecidableEq, Repr

/-- The loop of `run_batch` (lines 531-584), entries numbered from `i`:
an entry without `path` is logged and skipped; an entry whose
`bulk_extract` raises is logged and skipped; a completed entry adds its
counts to the totals.  Every case continues with the remaining entries. -/
def run_batch_loop : List BatchEntry → Nat → (Nat × Nat) × List BatchEvent
  | [], _ => ((0, 0), [])
  | e :: rest, i =>
      if e.hasPath then
        match e.outcome with
        | .ok (s, t) =>
            let r := run_batch_loop rest (i + 1)
            ((s + r.1.1, t + r.1.2), BatchEvent.entryCompleted i s t :: r.2)
        | .error _ =>
            let r := run_batch_loop rest (i + 1)
            (r.1, BatchEvent.entryError i :: r.2)
      else
        let r := run_batch_loop rest (i + 1)
        (r.1, BatchEvent.missingPathError i :: r.2)

/-- `run_batch` (lines 509-593): the loop starts with the entries numbered
from 1 (`enumerate(extractions, 1)`). -/
def run_batch (entries : List BatchEntry) : (Nat × Nat) × List BatchEvent :=
  run_batch_loop entries 1

/-- The success/total pairs of the entries that completed, in order. -/
def completedCounts (entries : List BatchEntry) : List (Nat × Nat) :=
  entries.filterMap (fun e => if e.hasPath then e.outcome.toOption else none)

/-- The log line an entry produces, by its shape. -/
def batchEventOf (i : Nat) (e : BatchEntry) : BatchEvent :=
  if e.hasPath then
    match e.outcome with
    | .ok (s, t) => BatchEvent.entryCompleted i s t
    | .error _ => BatchEvent.entryError i
  else BatchEvent.missingPathError i

/-- The expected batch log: one line per entry, in order. -/
def specBatchEvents : List BatchEntry → Nat → List BatchEvent
  | [], _ => []
  | e :: rest, i => batchEventOf i e :: specBatchEvents rest (i + 1)

/-- The exit-code logic of `main` (lines 595-640) for a single-path run:
`KeyboardInterrupt` returns 1; a missing path argument returns 1; an
exception out of `bulk_extract` is caught and returns 1; otherwise the
success/total counts are only logged and `main` returns 0. -/
def main_single (pathGiven : Bool) (interrupted : Bool)
    (outcome : Except String (Nat × Nat)) : Nat :=
  if interrupted then 1
  else if !pathGiven then 1
  else
    match outcome with
    | .error _ => 1
    | .ok _ => 0

theorem withinDepth_of_not_blocked {maxDepth : Option Int} {d : Nat}
    (h : depthBlocked maxDepth d = false) : withinDepth maxDepth d = true := by
  cases maxDepth with
  | none => rfl
  | some m =>
      simp only [depthBlocked, decide_eq_false_iff_not, not_lt] at h
      simpa [withinDepth] using h

theorem withinDepth_false_of_blocked_le {maxDepth : Option Int} {d d' : Nat}
    (h : depthBlocked maxDepth d = true) (hle : d ≤ d') :
    withinDepth maxDepth d' = false := by
  cases maxDepth with
  | none => simp [depthBlocked] at h
  | some m =>
      simp only [depthBlocked, decide_eq_true_eq] at h
      simp only [withinDepth, decide_eq_false_iff_not, not_le]
      have : (d : Int) ≤ (d' : Int) := by exact_mod_cast hle
      omega

theorem allFiles_depth_le (f : FSForest) :
    ∀ (d : Nat) (pfx : List String) (pd : List String × Nat),
      pd ∈ allFiles f d pfx → d ≤ pd.2 := by
  induction f with
  | nil => intro d pfx pd h; simp [allFiles] at h
  | file name rest ih =>
      intro d pfx pd h
      simp only [allFiles, List.mem_cons] at h
      rcases h with h | h
      · rw [h]
      · exact ih d pfx pd h
  | dir name acc children rest ihc ihr =>
      intro d pfx pd h
      simp only [allFiles, List.mem_append] at h
      rcases h with h | h
      · exact le_trans (Nat.le_succ d) (ihc (d + 1) _ pd h)
      · exact ihr d pfx pd h

theorem search_items_spec (exts : List String) (maxDepth : Option Int) (f : FSForest) :
    ∀ (depth : Nat) (pfx : List String),
      allAccessible f = true → depthBlocked maxDepth depth = false →
      search_items exts maxDepth f depth pfx =
        ((allFiles f depth pfx).filter
            (fun pd => matchesExts exts (pd.1.getLastD "") && withinDepth maxDepth pd.2)).map
          Prod.fst := by
  induction f with
  | nil => intro depth pfx _ _; rfl
  | file name rest ih =>
      intro depth pfx hacc hnb
      have hw : withinDepth maxDepth depth = true := withinDepth_of_not_blocked hnb
      have hlast : ((pfx ++ [name]).getLastD "") = name := by
        simp [List.getLastD_concat]
      simp only [allAccessible] at hacc
      simp only [search_items, allFiles, List.filter_cons, hlast, hw, Bool.and_true]
      rw [ih depth pfx hacc hnb]
      cases hm : matchesExts exts name with
      | true => simp
      | false => simp
  | dir name acc children rest ihc ihr =>
      intro depth pfx hacc hnb
      simp only [allAccessible, Bool.and_eq_true] at hacc
      obtain ⟨⟨hacc1, hacc2⟩, hacc3⟩ := hacc
      simp only [search_items, allFiles, List.filter_append, List.map_append]
      rw [ihr depth pfx hacc3 hnb]
      cases hb : depthBlocked maxDepth (depth + 1) with
      | true =>
          have hnilf :
              (allFiles children (depth + 1) (pfx ++ [name])).filter
                  (fun pd => matchesExts exts (pd.1.getLastD "") && withinDepth maxDepth pd.2) =
                [] := by
            apply List.filter_eq_nil_iff.mpr
            intro pd hpd
            have hdep := allFiles_depth_le children (depth + 1) (pfx ++ [name]) pd hpd
            have hwf := withinDepth_false_of_blocked_le hb hdep
            simp [hwf]
          rw [if_pos rfl, hnilf]
          simp
      | false =>
          rw [ihc (depth + 1) (pfx ++ [name]) hacc2 hb]
          simp [hacc1]

/-- C1: evaluation of the locator at a failing input for the documented
rule that a depth limit of 0 means unlimited.  On a tree whose only
matching file sits one level down, a run with depth limit 0 returns
nothing while a run with the limit unset returns that file, so the two
runs differ even though the CLI help text documents 0 as no limit. -/
theorem C1_depth_zero_differs :
    find_archives true
        (FSForest.dir "sub" true (FSForest.file "b.zip" FSForest.nil) FSForest.nil)
        [".zip"] (some 0) = [] ∧
      find_archives true
          (FSForest.dir "sub" true (FSForest.file "b.zip" FSForest.nil) FSForest.nil)
          [".zip"] none = [["sub", "b.zip"]] :=
  ⟨by decide, by decide⟩

/-- C3: on a tree whose directories are all readable, the locator returns
exactly the files whose name suffix is in the configured extension set
and which sit no deeper than the configured maximum number of directory
levels below the root, lexicographically ordered by path. -/
theorem C3_locator_exact (root : FSForest) (exts : List String) (maxDepth : Option Int)
    (hacc : allAccessible root = true) :
    find_archives true root exts maxDepth = locatorSpec root exts maxDepth ∧
      List.Sorted (· ≤ ·) (find_archives true root exts maxDepth) := by
  constructor
  · unfold find_archives locatorSpec
    cases hb : depthBlocked maxDepth 0 with
    | false =>
        rw [search_items_spec exts maxDepth root 0 [] hacc hb]
        simp
    | true =>
        have hnilf :
            (allFiles root 0 []).filter
                (fun pd => matchesExts exts (pd.1.getLastD "") && withinDepth maxDepth pd.2) =
              [] := by
          apply List.filter_eq_nil_iff.mpr
          intro pd hpd
          have hdep := allFiles_depth_le root 0 [] pd hpd
          have hwf := withinDepth_false_of_blocked_le hb hdep
          simp [hwf]
        rw [if_pos rfl, hnilf]
        simp
  · exact List.sorted_insertionSort _ _

/-- C3 witness: the theorem applied to a concrete two-level tree. -/
theorem C3_locator_exact_witness :
    allAccessible
        (FSForest.file "a.zip"
          (FSForest.dir "sub" true (FSForest.file "b.7z" FSForest.nil) FSForest.nil)) = true ∧
      find_archives true
          (FSForest.file "a.zip"
            (FSForest.dir "sub" true (FSForest.file "b.7z" FSForest.nil) FSForest.nil))
          [".zip", ".7z"] (some 1) =
        locatorSpec
          (FSForest.file "a.zip"
            (FSForest.dir "sub" true (FSForest.file "b.7z" FSForest.nil) FSForest.nil))
          [".zip", ".7z"] (some 1) :=
  ⟨by decide,
    (C3_locator_exact
        (FSForest.file "a.zip"
          (FSForest.dir "sub" true (FSForest.file "b.7z" FSForest.nil) FSForest.nil))
        [".zip", ".7z"] (some 1) (by decide)).1⟩

theorem extract_archive_no_unlink (file : ArchiveFile) (base : Option (List String))
    (seven : Option SevenMethod) (dryRun : Bool) (backendOk : ArchiveFile → Bool)
    (g : ArchiveFile) :
    Event.unlink g ∉ (extract_archive file base seven dryRun backendOk).2 ∧
      Event.unlinkError g ∉ (extract_archive file base seven dryRun backendOk).2 := by
  unfold extract_archive
  cases dryRun <;> cases seven <;>
    by_cases h1 : lowerStr (pySuffix file.name) = ".zip" <;>
    by_cases h2 : lowerStr (pySuffix file.name) = ".7z" <;>
    simp [extract_zip, extract_7z, h1, h2]

theorem processOne_fst (ctx : ExtractCtx) (f : ArchiveFile) :
    (processOne ctx f).1 =
      (extract_archive f ctx.base ctx.seven ctx.dryRun ctx.backendOk).1 := by
  simp only [processOne]
  split
  · split <;> rfl
  · rfl

theorem processOne_unlink_mem (ctx : ExtractCtx) (g f : ArchiveFile)
    (h : Event.unlink f ∈ (processOne ctx g).2 ∨ Event.unlinkError f ∈ (processOne ctx g).2) :
    f = g ∧ ctx.dryRun = false ∧
      (extract_archive g ctx.base ctx.seven ctx.dryRun ctx.backendOk).1 = true := by
  have hno := extract_archive_no_unlink g ctx.base ctx.seven ctx.dryRun ctx.backendOk f
  simp only [processOne] at h
  by_cases hc :
      ((extract_archive g ctx.base ctx.seven ctx.dryRun ctx.backendOk).1 && ctx.removeArchives &&
        !ctx.dryRun) = true
  · have hparts := hc
    simp only [Bool.and_eq_true, Bool.not_eq_true'] at hparts
    obtain ⟨⟨hsucc, _⟩, hdry⟩ := hparts
    rw [if_pos hc] at h
    by_cases hu : ctx.unlinkOk g = true
    · rw [if_pos hu] at h
      rcases h with h | h <;> simp only [List.mem_append, List.mem_singleton] at h <;>
        rcases h with h | h
      · exact absurd h hno.1
      · exact ⟨(Event.unlink.injEq f g).mp h, hdry, hsucc⟩
      · exact absurd h hno.2
      · exact absurd h (by simp)
    · rw [if_neg hu] at h
      rcases h with h | h <;> simp only [List.mem_append, List.mem_singleton] at h <;>
        rcases h with h | h
      · exact absurd h hno.1
      · exact absurd h (by simp)
      · exact absurd h hno.2
      · exact ⟨(Event.unlinkError.injEq f g).mp h, hdry, hsucc⟩
  · rw [if_neg hc] at h
    rcases h with h | h
    · exact absurd h hno.1
    · exact absurd h hno.2

/-- C4: a deletion of an original archive is attempted by the processing
loop only for an archive whose extraction succeeded, and only outside
dry-run; a failed extraction therefore never has its archive deleted,
whatever removal option is set. -/
theorem C4_no_delete_without_success (ctx : ExtractCtx) (files : List ArchiveFile)
    (f : ArchiveFile)
    (h : Event.unlink f ∈ (bulk_extract_loop ctx files).2 ∨
        Event.unlinkError f ∈ (bulk_extract_loop ctx files).2) :
    ctx.dryRun = false ∧
      (extract_archive f ctx.base ctx.seven ctx.dryRun ctx.backendOk).1 = true := by
  induction files with
  | nil => simp [bulk_extract_loop] at h
  | cons g rest ih =>
      simp only [bulk_extract_loop, List.mem_append] at h
      rcases h with (h | h) | (h | h)
      · obtain ⟨hfg, hdry, hsucc⟩ := processOne_unlink_mem ctx g f (Or.inl h)
        exact ⟨hdry, hfg ▸ hsucc⟩
      · exact ih (Or.inl h)
      · obtain ⟨hfg, hdry, hsucc⟩ := processOne_unlink_mem ctx g f (Or.inr h)
        exact ⟨hdry, hfg ▸ hsucc⟩
      · exact ih (Or.inr h)

/-- C4 witness: the theorem applied to a run that extracts `a.zip`
successfully with removal requested, where the deletion does happen. -/
theorem C4_no_delete_without_success_witness :
    (Event.unlink (ArchiveFile.mk [] "a.zip") ∈
        (bulk_extract_loop
            (ExtractCtx.mk none none false true (fun _ => true) (fun _ => true))
            [ArchiveFile.mk [] "a.zip"]).2 ∨
      Event.unlinkError (ArchiveFile.mk [] "a.zip") ∈
        (bulk_extract_loop
            (ExtractCtx.mk none none false true (fun _ => true) (fun _ => true))
            [ArchiveFile.mk [] "a.zip"]).2) ∧
      (false = false ∧
        (extract_archive (ArchiveFile.mk [] "a.zip") none none false (fun _ => true)).1 =
          true) :=
  ⟨Or.inl (by decide),
    C4_no_delete_without_success
      (ExtractCtx.mk none none false true (fun _ => true) (fun _ => true))
      [ArchiveFile.mk [] "a.zip"] (ArchiveFile.mk [] "a.zip") (Or.inl (by decide))⟩

theorem bulk_extract_loop_append (ctx : ExtractCtx) (l1 l2 : List ArchiveFile) :
    bulk_extract_loop ctx (l1 ++ l2) =
      ((bulk_extract_loop ctx l1).1 + (bulk_extract_loop ctx l2).1,
        (bulk_extract_loop ctx l1).2 ++ (bulk_extract_loop ctx l2).2) := by
  induction l1 with
  | nil => simp [bulk_extract_loop]
  | cons f rest ih =>
      simp [bulk_extract_loop, ih, Nat.add_assoc, List.append_assoc]

/-- C5: on a located file whose lowercased suffix is neither `.zip` nor
`.7z`, the dispatcher fails with a warning and invokes no backend, and
the processing loop is not aborted: the surrounding archives are
processed exactly as without that file, which itself contributes nothing
to the success count. -/
theorem C5_unsupported_nonfatal_skip (ctx : ExtractCtx) (f : ArchiveFile)
    (h1 : lowerStr (pySuffix f.name) ≠ ".zip") (h2 : lowerStr (pySuffix f.name) ≠ ".7z") :
    (extract_archive f ctx.base ctx.seven ctx.dryRun ctx.backendOk).1 = false ∧
      Event.warnUnsupported f ∈
        (extract_archive f ctx.base ctx.seven ctx.dryRun ctx.backendOk).2 ∧
      (∀ g : ArchiveFile,
        Event.invokeZip g ∉ (extract_archive f ctx.base ctx.seven ctx.dryRun ctx.backendOk).2) ∧
      (∀ g : ArchiveFile,
        Event.invoke7z g ∉ (extract_archive f ctx.base ctx.seven ctx.dryRun ctx.backendOk).2) ∧
      ∀ pre post : List ArchiveFile,
        bulk_extract_loop ctx (pre ++ f :: post) =
          ((bulk_extract_loop ctx pre).1 + (bulk_extract_loop ctx post).1,
            (bulk_extract_loop ctx pre).2 ++
              ((extract_archive f ctx.base ctx.seven ctx.dryRun ctx.backendOk).2 ++
                (bulk_extract_loop ctx post).2)) := by
  have hres :
      extract_archive f ctx.base ctx.seven ctx.dryRun ctx.backendOk =
        (false,
          (if ctx.dryRun then ([] : List Event)
           else
             [Event.mkdir
                (match ctx.base with
                 | some b => b ++ [pyStem f.name]
                 | none => f.parent ++ [pyStem f.name])]) ++
            [Event.warnUnsupported f]) := by
    unfold extract_archive
    rw [if_neg h1, if_neg h2]
  refine ⟨by rw [hres], ?_, ?_, ?_, ?_⟩
  · rw [hres]; cases hd : ctx.dryRun <;> simp
  · intro g; rw [hres]; cases hd : ctx.dryRun <;> simp
  · intro g; rw [hres]; cases hd : ctx.dryRun <;> simp
  · intro pre post
    have hp :
        processOne ctx f = extract_archive f ctx.base ctx.seven ctx.dryRun ctx.backendOk := by
      simp only [processOne, hres]
      simp
    rw [bulk_extract_loop_append]
    simp only [bulk_extract_loop, hp, hres]
    simp

/-- C5 witness: the theorem applied to a file `a.rar` amid two zip
archives. -/
theorem C5_unsupported_nonfatal_skip_witness :
    (lowerStr (pySuffix "a.rar") ≠ ".zip" ∧ lowerStr (pySuffix "a.rar") ≠ ".7z") ∧
      (extract_archive (ArchiveFile.mk [] "a.rar") none none false (fun _ => true)).1 =
        false :=
  ⟨⟨by decide, by decide⟩,
    (C5_unsupported_nonfatal_skip
        (ExtractCtx.mk none none false false (fun _ => true) (fun _ => true))
        (ArchiveFile.mk [] "a.rar") (by decide) (by decide)).1⟩

/-- C7: the directory-creation effects of the dispatcher are exactly one
creation of the target directory, the output root joined with the
archive base name when an output root is supplied and otherwise the
parent directory joined with the base name, and none in dry-run. -/
theorem C7_target_output_dir (file : ArchiveFile) (base : Option (List String))
    (seven : Option SevenMethod) (dryRun : Bool) (backendOk : ArchiveFile → Bool) :
    ((extract_archive file base seven dryRun backendOk).2.filter isMkdir) =
      if dryRun then [] else [Event.mkdir (dispatcherTargetDir base file)] := by
  unfold extract_archive dispatcherTargetDir
  cases dryRun <;> cases seven <;> cases base <;>
    by_cases h1 : lowerStr (pySuffix file.name) = ".zip" <;>
    by_cases h2 : lowerStr (pySuffix file.name) = ".7z" <;>
    simp [extract_zip, extract_7z, isMkdir, h1, h2, List.filter]

/-- C9: in a non-dry-run the very first effect of the dispatcher is the
creation of the target directory, before the extension is even examined,
so the directory is created also for unsupported extensions and failing
extractions; in dry-run no directory is created. -/
theorem C9_mkdir_before_dispatch (file : ArchiveFile) (base : Option (List String))
    (seven : Option SevenMethod) (backendOk : ArchiveFile → Bool) :
    ((extract_archive file base seven false backendOk).2.head? =
        some (Event.mkdir (dispatcherTargetDir base file))) ∧
      ∀ d : List String,
        Event.mkdir d ∉ (extract_archive file base seven true backendOk).2 := by
  constructor
  · unfold extract_archive dispatcherTargetDir
    cases seven <;> cases base <;>
      by_cases h1 : lowerStr (pySuffix file.name) = ".zip" <;>
      by_cases h2 : lowerStr (pySuffix file.name) = ".7z" <;>
      simp [extract_zip, extract_7z, h1, h2]
  · intro d
    unfold extract_archive
    cases seven <;>
      by_cases h1 : lowerStr (pySuffix file.name) = ".zip" <;>
      by_cases h2 : lowerStr (pySuffix file.name) = ".7z" <;>
      simp [extract_zip, extract_7z, h1, h2]

/-- C10: when an archive extracted successfully and the deletion of the
original then fails, the archive still counts as a success, only a
deletion error is logged after the extraction effects, and the loop goes
on with the remaining archives; moreover the success count never depends
on the deletion oracle at all. -/
theorem C10_unlink_error_nonfatal (ctx : ExtractCtx) (rest : List ArchiveFile)
    (f : ArchiveFile)
    (hs : (extract_archive f ctx.base ctx.seven ctx.dryRun ctx.backendOk).1 = true)
    (hr : ctx.removeArchives = true) (hd : ctx.dryRun = false)
    (hu : ctx.unlinkOk f = false) :
    bulk_extract_loop ctx (f :: rest) =
      (1 + (bulk_extract_loop ctx rest).1,
        (extract_archive f ctx.base ctx.seven ctx.dryRun ctx.backendOk).2 ++
          (Event.unlinkError f :: (bulk_extract_loop ctx rest).2)) ∧
      ∀ (files : List ArchiveFile) (g g' : ArchiveFile → Bool),
        (bulk_extract_loop { ctx with unlinkOk := g } files).1 =
          (bulk_extract_loop { ctx with unlinkOk := g' } files).1 := by
  constructor
  · have hp :
        processOne ctx f =
          ((extract_archive f ctx.base ctx.seven ctx.dryRun ctx.backendOk).1,
            (extract_archive f ctx.base ctx.seven ctx.dryRun ctx.backendOk).2 ++
              [Event.unlinkError f]) := by
      have hcond :
          ((extract_archive f ctx.base ctx.seven ctx.dryRun ctx.backendOk).1 &&
            ctx.removeArchives && !ctx.dryRun) = true := by
        rw [hs, hr, hd]
        rfl
      simp only [processOne]
      rw [if_pos hcond, if_neg (by simp [hu])]
    simp [bulk_extract_loop, hp, hs]
  · intro files g g'
    induction files with
    | nil => rfl
    | cons x xs ih =>
        simp only [bulk_extract_loop, processOne_fst]
        rw [ih]

/-- C10 witness: the theorem applied to a successful zip extraction whose
deletion oracle refuses. -/
theorem C10_unlink_error_nonfatal_witness :
    ((extract_archive (ArchiveFile.mk [] "a.zip") none none false (fun _ => true)).1 = true ∧
        true = true ∧ false = false ∧ false = false) ∧
      bulk_extract_loop
          (ExtractCtx.mk none none false true (fun _ => true) (fun _ => false))
          [ArchiveFile.mk [] "a.zip"] =
        (1 +
            (bulk_extract_loop
                (ExtractCtx.mk none none false true (fun _ => true) (fun _ => false))
                []).1,
          (extract_archive (ArchiveFile.mk [] "a.zip") none none false (fun _ => true)).2 ++
            (Event.unlinkError (ArchiveFile.mk [] "a.zip") ::
              (bulk_extract_loop
                  (ExtractCtx.mk none none false true (fun _ => true) (fun _ => false))
                  []).2)) :=
  ⟨⟨by decide, rfl, rfl, rfl⟩,
    (C10_unlink_error_nonfatal
        (ExtractCtx.mk none none false true (fun _ => true) (fun _ => false))
        [] (ArchiveFile.mk [] "a.zip") (by decide) rfl rfl (by decide)).1⟩

theorem run_batch_loop_spec (entries : List BatchEntry) :
    ∀ i : Nat,
      run_batch_loop entries i =
        ((((completedCounts entries).map Prod.fst).sum,
            ((completedCounts entries).map Prod.snd).sum),
          specBatchEvents entries i) := by
  induction entries with
  | nil => intro i; rfl
  | cons e rest ih =>
      intro i
      cases hp : e.hasPath with
      | false =>
          simp [run_batch_loop, specBatchEvents, batchEventOf, completedCounts,
            List.filterMap_cons, hp, ih]
      | true =>
          cases ho : e.outcome with
          | ok st =>
              obtain ⟨s, t⟩ := st
              simp [run_batch_loop, specBatchEvents, batchEventOf, completedCounts,
                List.filterMap_cons, hp, ho, ih, Except.toOption]
          | error msg =>
              simp [run_batch_loop, specBatchEvents, batchEventOf, completedCounts,
                List.filterMap_cons, hp, ho, ih, Except.toOption]

theorem specBatchEvents_length (entries : List BatchEntry) :
    ∀ i : Nat, (specBatchEvents entries i).length = entries.length := by
  induction entries with
  | nil => intro i; rfl
  | cons e rest ih => intro i; simp [specBatchEvents, ih]

/-- C6: the batch runner logs one line per configuration entry, in order,
whatever mix of missing-path entries, raising entries and completed
entries the list holds (so no entry aborts the batch), and its aggregate
success and total counts are exactly the sums over the entries that
completed. -/
theorem C6_batch_isolation (entries : List BatchEntry) :
    run_batch entries =
      ((((completedCounts entries).map Prod.fst).sum,
          ((completedCounts entries).map Prod.snd).sum),
        specBatchEvents entries 1) ∧
      (run_batch entries).2.length = entries.length := by
  refine ⟨run_batch_loop_spec entries 1, ?_⟩
  rw [run_batch, run_batch_loop_spec entries 1]
  exact specBatchEvents_length entries 1

theorem firstWorking_eq_some_iff (works : String → Bool) (l : List String) (p : String) :
    firstWorking works l = some p ↔
      works p = true ∧
        ∃ pre post : List String, l = pre ++ p :: post ∧ ∀ q ∈ pre, works q = false := by
  induction l with
  | nil =>
      simp only [firstWorking]
      constructor
      · intro h; exact absurd h (by simp)
      · rintro ⟨_, pre, post, habs, _⟩
        exact absurd habs.symm (by simp)
  | cons a rest ih =>
      simp only [firstWorking]
      by_cases hw : works a = true
      · rw [if_pos hw]
        constructor
        · intro h
          have hap : a = p := by injection h
          subst hap
          exact ⟨hw, [], rest, rfl, by simp⟩
        · rintro ⟨hwp, pre, post, heq, hpre⟩
          cases pre with
          | nil =>
              have hap : a = p := by
                simp only [List.nil_append] at heq
                exact ((List.cons.injEq a rest p post).mp heq).1
              rw [hap]
          | cons b pre2 =>
              have hab : a = b := by
                simp only [List.cons_append] at heq
                exact ((List.cons.injEq a rest b (pre2 ++ p :: post)).mp heq).1
              have hbw : works b = false := hpre b (by simp)
              rw [← hab, hw] at hbw
              exact absurd hbw (by simp)
      · rw [if_neg hw]
        have hwa : works a = false := by simpa using hw
        rw [ih]
        constructor
        · rintro ⟨hwp, pre, post, heq, hpre⟩
          refine ⟨hwp, a :: pre, post, by rw [heq, List.cons_append], ?_⟩
          intro q hq
          rcases List.mem_cons.mp hq with hq | hq
          · rw [hq]; exact hwa
          · exact hpre q hq
        · rintro ⟨hwp, pre, post, heq, hpre⟩
          cases pre with
          | nil =>
              have hap : a = p := by
                simp only [List.nil_append] at heq
                exact ((List.cons.injEq a rest p post).mp heq).1
              have hpf : works p = false := hap ▸ hwa
              rw [hpf] at hwp
              exact absurd hwp (by simp)
          | cons b pre2 =>
              have hparts := (List.cons.injEq a rest b (pre2 ++ p :: post)).mp
                (by simpa [List.cons_append] using heq)
              refine ⟨hwp, pre2, post, hparts.2, ?_⟩
              intro q hq
              exact hpre q (by simp [hq])

/-- C8: the 7z resolver prefers the in-process library whenever it is
importable, with the probe results never consulted; otherwise it settles
on the first candidate that probes as working, in the order
caller-supplied path, platform default locations, system PATH lookup;
otherwise it resolves to no method, and then every archive with suffix
`.7z` fails through the dispatcher with the unavailability error and no
backend invocation. -/
theorem C8_backend_resolver (env : SevenZipEnv) :
    (env.hasPy7zr = true →
      ∀ w : String → Bool,
        detect_7zip { env with works := w } = some SevenMethod.py7zr) ∧
      (env.hasPy7zr = false →
        detect_7zip env =
          (firstWorking env.works (paths_to_check env)).map SevenMethod.executable) ∧
      (env.hasPy7zr = false →
        ∀ p : String,
          (detect_7zip env = some (SevenMethod.executable p) ↔
            env.works p = true ∧
              ∃ pre post : List String,
                paths_to_check env = pre ++ p :: post ∧ ∀ q ∈ pre, env.works q = false)) ∧
      (detect_7zip env = none →
        ∀ (f : ArchiveFile) (base : Option (List String)) (dryRun : Bool)
          (backendOk : ArchiveFile → Bool),
          lowerStr (pySuffix f.name) = ".7z" →
            (extract_archive f base none dryRun backendOk).1 = false ∧
              Event.error7zUnavailable f ∈ (extract_archive f base none dryRun backendOk).2 ∧
              ∀ g : ArchiveFile,
                Event.invoke7z g ∉ (extract_archive f base none dryRun backendOk).2 ∧
                  Event.invokeZip g ∉ (extract_archive f base none dryRun backendOk).2) := by
  refine ⟨?_, ?_, ?_, ?_⟩
  · intro hpy w
    simp [detect_7zip, hpy]
  · intro hpy
    simp only [detect_7zip, hpy, Bool.false_eq_true, if_false]
    cases firstWorking env.works (paths_to_check env) <;> simp
  · intro hpy p
    simp only [detect_7zip, hpy, Bool.false_eq_true, if_false]
    rw [← firstWorking_eq_some_iff env.works (paths_to_check env) p]
    cases firstWorking env.works (paths_to_check env) <;> simp
  · intro _ f base dryRun backendOk hsuf
    have hzip : lowerStr (pySuffix f.name) ≠ ".zip" := by rw [hsuf]; decide
    unfold extract_archive
    rw [if_neg hzip, if_pos hsuf]
    refine ⟨by simp [extract_7z], ?_, ?_⟩
    · cases dryRun <;> simp [extract_7z]
    · intro g
      cases dryRun <;> simp [extract_7z]

/-- C8 witness: with the library missing, a caller-supplied path and a
PATH lookup present but only a platform default working, the resolver
settles on that default. -/
theorem C8_backend_resolver_witness :
    detect_7zip
        (SevenZipEnv.mk false (some "/custom/7z") false (some "/somewhere/7z")
          (fun s => s == "/usr/local/bin/7z")) =
      some (SevenMethod.executable "/usr/local/bin/7z") := by
  have h :=
    (C8_backend_resolver
        (SevenZipEnv.mk false (some "/custom/7z") false (some "/somewhere/7z")
          (fun s => s == "/usr/local/bin/7z"))).2.1 rfl
  rw [h]
  rfl

/-- C2 counterexample: a single-path run over one archive of which zero
extracted still exits with code 0, though the claim demands a non-zero
exit code on any per-archive failure; and the keyboard-interrupt exit
code equals the fatal-error exit code, though the claim demands a
distinct cancelled code. -/
theorem C2_exit_code_counterexample :
    main_single true false (Except.ok (0, 1)) = 0 ∧
      main_single true true (Except.ok (1, 1)) = main_single true false (Except.error "x") :=
  ⟨rfl, rfl⟩

/-- C2 amended: in a single-path run the exit code is 0 exactly when the
run was not interrupted, a path was given, and the pipeline completed
without a fatal error, whatever the per-archive success and total
counts; interrupts and fatal errors share the exit code 1. -/
theorem C2_exit_code_amended (pathGiven interrupted : Bool)
    (outcome : Except String (Nat × Nat)) :
    main_single pathGiven interrupted outcome = 0 ↔
      interrupted = false ∧ pathGiven = true ∧ ∃ r : Nat × Nat, outcome = Except.ok r := by
  cases interrupted <;> cases pathGiven <;> cases outcome <;> simp [main_single]
